import Mathlib

set_option maxRecDepth 8000

/-!
Verification of the rating-aggregation core of the Series-y-Pelis repository.

The JavaScript sources are embedded shallowly:
* JS strings are `String`/`List Char`; the regex-based cleaning pipeline of
  `modules/title_normalize.js` acts character-wise, so it is modelled as maps,
  filters and a run-splitter over `List Char`.
* JS numbers are modelled as `ℚ` (the values that arise here are exact decimal
  fractions, which doubles represent faithfully at the comparisons performed).
* nullable values are `Option`; JS string truthiness (`""` falsy) is modelled
  explicitly where the source relies on it.
* `Array.prototype.sort` with comparator `(a, b) => b.s - a.s` is a stable
  descending sort (ES2019 requires sort stability); any stable descending sort
  computes the same list, so an insertion sort that keeps earlier elements on
  ties models it exactly.
-/

namespace JsStr

/-- After the cleaning stage of `normalizeTitle` every character that is not a
lowercase ASCII letter or digit has been replaced by whitespace and whitespace
runs collapse, so tokens are exactly the maximal runs of `[a-z0-9]`. -/
def isKept (c : Char) : Bool :=
  decide ((97 ≤ c.toNat ∧ c.toNat ≤ 122) ∨ (48 ≤ c.toNat ∧ c.toNat ≤ 57))

def spChar : Char := Char.ofNat 32

def aposChar : Char := Char.ofNat 39

def rightQuoteChar : Char := Char.ofNat 8217

def quoteChar : Char := Char.ofNat 34

def ampChar : Char := Char.ofNat 38

/-- `String.prototype.toLowerCase()` on the repertoire this pipeline meets:
ASCII `A`–`Z` and the Latin-1 uppercase letters `À`–`Þ` (U+00C0..U+00DE, except
`×` U+00D7) map to their `+32` lowercase form; other code points are left
unchanged. -/
def jsToLowerChar (c : Char) : Char :=
  if 65 ≤ c.toNat ∧ c.toNat ≤ 90 then Char.ofNat (c.toNat + 32)
  else if (192 ≤ c.toNat ∧ c.toNat ≤ 222) ∧ c.toNat ≠ 215 then Char.ofNat (c.toNat + 32)
  else c

/-- NFD decomposition bases for the precomposed Latin-1 lowercase letters:
`s.normalize("NFD").replace(/[̀-ͯ]/g, "")` maps each of these to its
base letter (the combining marks U+0300–U+036F are removed) and leaves
characters without a canonical decomposition unchanged.  `toLowerCase` runs
first in `normalizeTitle`, so lowercase keys suffice. -/
def stripTable : List (Char × Char) :=
  [(Char.ofNat 224, 'a'), (Char.ofNat 225, 'a'), (Char.ofNat 226, 'a'),
   (Char.ofNat 227, 'a'), (Char.ofNat 228, 'a'), (Char.ofNat 229, 'a'),
   (Char.ofNat 231, 'c'),
   (Char.ofNat 232, 'e'), (Char.ofNat 233, 'e'), (Char.ofNat 234, 'e'),
   (Char.ofNat 235, 'e'),
   (Char.ofNat 236, 'i'), (Char.ofNat 237, 'i'), (Char.ofNat 238, 'i'),
   (Char.ofNat 239, 'i'),
   (Char.ofNat 241, 'n'),
   (Char.ofNat 242, 'o'), (Char.ofNat 243, 'o'), (Char.ofNat 244, 'o'),
   (Char.ofNat 245, 'o'), (Char.ofNat 246, 'o'),
   (Char.ofNat 249, 'u'), (Char.ofNat 250, 'u'), (Char.ofNat 251, 'u'),
   (Char.ofNat 252, 'u'),
   (Char.ofNat 253, 'y'), (Char.ofNat 255, 'y')]

def stripDiacriticsChar (c : Char) : Char := (stripTable.lookup c).getD c

/-- `.replace(/&/g, "and")` acts on single characters. -/
def ampExpand (c : Char) : List Char :=
  if c = ampChar then ['a', 'n', 'd'] else [c]

/-- The character-wise part of the cleaning pipeline, in source order:
lowercase, strip diacritics, `&` → `and`, drop the apostrophe class `apos`.
The remaining stages (`[^a-z0-9\s]` → space, `\s+` → one space, trim) only
determine token boundaries and are performed by `splitRuns isKept`. -/
def cleanChars (apos : Char → Bool) (cs : List Char) : List Char :=
  (((cs.map jsToLowerChar).map stripDiacriticsChar).flatMap ampExpand).filter
    (fun c => !apos c)

/-- Auxiliary splitter: `(run still open at the front, completed runs)`. -/
def splitAux (p : Char → Bool) : List Char → List Char × List (List Char)
  | [] => ([], [])
  | c :: cs =>
    let r := splitAux p cs
    if p c then (c :: r.1, r.2)
    else ([], if r.1 = [] then r.2 else r.1 :: r.2)

/-- Maximal runs of characters satisfying `p`: the token list of
`str.split(<separators>)` with empty pieces dropped. -/
def splitRuns (p : Char → Bool) (cs : List Char) : List (List Char) :=
  let r := splitAux p cs
  if r.1 = [] then r.2 else r.1 :: r.2

/-- Join tokens with a single separator: the single-spaced, trimmed string. -/
def joinSep (sp : Char) : List (List Char) → List Char
  | [] => []
  | [t] => t
  | t :: ts => t ++ sp :: joinSep sp ts

/-- The Jaccard index of two token lists already deduplicated by `new Set`:
`|A ∩ B| / |A ∪ B|` computed as the source computes it. -/
def jaccard (A B : List (List Char)) : ℚ :=
  if A.length = 0 ∨ B.length = 0 then 0
  else
    let inter := A.countP (fun t => decide (t ∈ B))
    let union := A.length + B.length - inter
    if union = 0 then 0 else (inter : ℚ) / (union : ℚ)

end JsStr

namespace TitleNormalize

/-- The apostrophe class of `modules/title_normalize.js`: `/['’]/`. -/
def aposM (c : Char) : Bool :=
  decide (c = JsStr.aposChar) || decide (c = JsStr.rightQuoteChar)

/-- The token list of the `cleaned` string of `normalizeTitle`
(`modules/title_normalize.js` lines 7–12). -/
def cleanedTokens (s : String) : List (List Char) :=
  JsStr.splitRuns JsStr.isKept (JsStr.cleanChars aposM s.data)

def wMiniserie : List Char := "miniserie".data

def wMini : List Char := "mini".data

def wSerie : List Char := "serie".data

def wAnimacion : List Char := "animacion".data

def wDe : List Char := "de".data

def wTemporada : List Char := "temporada".data

def wSeason : List Char := "season".data

/-- The stoplist pass
`/\b(miniserie|mini serie|serie animacion|serie de animacion|temporada|season)\b/g → ""`
followed by whitespace collapse, on the cleaned single-spaced string.  On such
a string a `\b`-delimited alternative can only match whole tokens, and the
global scan resumes after each match, so the pass is a left-to-right scan over
the token list that drops each matched token group. -/
def removeNoise : List (List Char) → List (List Char)
  | [] => []
  | [t] =>
    if t = wMiniserie ∨ t = wTemporada ∨ t = wSeason then [] else [t]
  | [t, u] =>
    if t = wMiniserie ∨ t = wTemporada ∨ t = wSeason then removeNoise [u]
    else if (t = wMini ∧ u = wSerie) ∨ (t = wSerie ∧ u = wAnimacion) then []
    else t :: removeNoise [u]
  | t :: u :: v :: ts3 =>
    if t = wMiniserie ∨ t = wTemporada ∨ t = wSeason then removeNoise (u :: v :: ts3)
    else if (t = wMini ∧ u = wSerie) ∨ (t = wSerie ∧ u = wAnimacion) then removeNoise (v :: ts3)
    else if t = wSerie ∧ u = wDe ∧ v = wAnimacion then removeNoise ts3
    else t :: removeNoise (u :: v :: ts3)

/-- Does some stoplist alternative match at the head of the token list? -/
def noiseHead : List (List Char) → Bool
  | [] => false
  | t :: ts =>
    decide (t = wMiniserie) || decide (t = wTemporada) || decide (t = wSeason) ||
      (match ts with
       | [] => false
       | u :: ts2 =>
         (decide (t = wMini) && decide (u = wSerie)) ||
           (decide (t = wSerie) && decide (u = wAnimacion)) ||
           (decide (t = wSerie) && decide (u = wDe) &&
             decide (ts2.head? = some wAnimacion)))

/-- No stoplist alternative matches at any position. -/
def noNoise : List (List Char) → Bool
  | [] => true
  | t :: ts => !noiseHead (t :: ts) && noNoise ts

def normTokens (s : String) : List (List Char) := removeNoise (cleanedTokens s)

/-- `normalizeTitle` of `modules/title_normalize.js`: the cleaned string with
the stoplist tokens removed and whitespace re-collapsed. -/
def normalizeTitle (s : String) : String :=
  String.mk (JsStr.joinSep JsStr.spChar (normTokens s))

/-- `normalizeTitle(a).split(" ").filter(Boolean)`: the output of
`normalizeTitle` is single-spaced, so these are its maximal space-free runs. -/
def simTokens (a : String) : List (List Char) :=
  JsStr.splitRuns (fun c => !decide (c = JsStr.spChar)) (normalizeTitle a).data

/-- `tokenSimilarity` of `modules/title_normalize.js`: Jaccard index of the
deduplicated (`new Set`) token lists. -/
def tokenSimilarity (a b : String) : ℚ :=
  JsStr.jaccard (simTokens a).dedup (simTokens b).dedup

end TitleNormalize

namespace FaMatch

/-! `modules/fa_match.js` (src/unnamed/part_003): the candidate resolver. -/

/-- The fields of the item that `fa_match.js` reads: `item.title`,
`item.type` (`"movie"` or `"series"`), `item.year` (`none` models a value
that is not a finite number). -/
structure Item where
  title : String
  type : String
  year : Option Int
deriving DecidableEq

/-- `FACandidate`: one FilmAffinity search hit.  `type` is a free string
(`"movie" | "series" | string`); `year`, `url`, `rating` are nullable. -/
structure FACandidate where
  title : String
  type : String
  year : Option Int
  url : Option String
  rating : Option ℚ
deriving DecidableEq

/-- JS truthiness of a nullable string: `null`/`undefined` and `""` are falsy. -/
def jsTruthyStr : Option String → Bool
  | none => false
  | some s => decide (s ≠ "")

/-- `hardReject` of `fa_match.js`: type must match exactly when the item's type
is `"movie"` or `"series"` (`faType !== "movie"` also fires for an unknown
type), then the year window when both years are finite. -/
def hardReject (item : Item) (cand : FACandidate) : Bool :=
  if item.type = "movie" ∧ cand.type ≠ "movie" then true
  else if item.type = "series" ∧ cand.type ≠ "series" then true
  else
    match item.year, cand.year with
    | some yi, some yc => decide ((yi - yc).natAbs > 1)
    | _, _ => false

/-- `scoreCandidate` of `fa_match.js`: `100·similarity` plus the additive
bonuses (+25 exact normalized title, +18/+10 year distance 0/1, +3 rating
present, +2 url truthy). -/
def scoreCandidate (item : Item) (cand : FACandidate) : ℚ :=
  let tSim := TitleNormalize.tokenSimilarity item.title cand.title
  tSim * 100
    + (if TitleNormalize.normalizeTitle item.title =
          TitleNormalize.normalizeTitle cand.title then (25 : ℚ) else 0)
    + (match item.year, cand.year with
       | some yi, some yc =>
         if (yi - yc).natAbs = 0 then (18 : ℚ)
         else if (yi - yc).natAbs = 1 then 10 else 0
       | _, _ => 0)
    + (if cand.rating.isSome then (3 : ℚ) else 0)
    + (if jsTruthyStr cand.url then (2 : ℚ) else 0)

/-- Stable insertion of a scored candidate into a descending list: an earlier
element stays in front of later elements with the same score (`x.2 ≥ y.2`). -/
def insertDesc (x : FACandidate × ℚ) : List (FACandidate × ℚ) → List (FACandidate × ℚ)
  | [] => [x]
  | y :: ys => if x.2 ≥ y.2 then x :: y :: ys else y :: insertDesc x ys

/-- Stable descending sort by score: extensionally equal to
`.sort((a, b) => b.s - a.s)` (a stable sort per ES2019, and the stable
descending order of a list is unique). -/
def sortDesc : List (FACandidate × ℚ) → List (FACandidate × ℚ)
  | [] => []
  | x :: xs => insertDesc x (sortDesc xs)

/-- `pickBestFA` of `fa_match.js`.  `opts` models `opts.minTitleSim`
(`?? 0.45`).  The `head?` is `ranked[0]` (never `none`: the empty case was
returned early). -/
def pickBestFA (item : Item) (candidates : List FACandidate) (opts : Option ℚ) :
    Option FACandidate :=
  let minTitleSim := opts.getD (45 / 100)
  let filtered := candidates.filter (fun c => !hardReject item c)
  if filtered.isEmpty then none
  else
    match (sortDesc (filtered.map (fun c => (c, scoreCandidate item c)))).head? with
    | none => none
    | some (best, _) =>
      if TitleNormalize.tokenSimilarity item.title best.title < minTitleSim then none
      else some best

/-- The earliest maximum of a scored list: a later element replaces the
current best only when its score is strictly greater. -/
def firstMax : List (FACandidate × ℚ) → Option (FACandidate × ℚ)
  | [] => none
  | x :: xs =>
    match firstMax xs with
    | none => some x
    | some m => if m.2 > x.2 then some m else some x

/-- Reference resolver: one deterministic left-to-right pass keeping the first
candidate of maximal score, then the similarity floor. -/
def pickBestFARef (item : Item) (candidates : List FACandidate) (opts : Option ℚ) :
    Option FACandidate :=
  let minTitleSim := opts.getD (45 / 100)
  match firstMax ((candidates.filter (fun c => !hardReject item c)).map
      (fun c => (c, scoreCandidate item c))) with
  | none => none
  | some (best, _) =>
    if TitleNormalize.tokenSimilarity item.title best.title < minTitleSim then none
    else some best

/-- The maximum-score surviving candidate (the one `pickBestFA` checks the
floor against). -/
def bestSurvivor (item : Item) (candidates : List FACandidate) : Option FACandidate :=
  (firstMax ((candidates.filter (fun c => !hardReject item c)).map
      (fun c => (c, scoreCandidate item c)))).map Prod.fst

end FaMatch

namespace BuildV3

/-! src/unnamed/part_001 (the latest build script revision): its own
normalizer (no stoplist stage), the FilmAffinity query cascade, the score
aggregator, the coverage gate and the temporal window filter. -/

/-- The apostrophe class of part_001's `normalizeTitle`: `/[’'"]/` (the double
quote is deleted here, unlike in `modules/title_normalize.js` where it becomes
a space). -/
def aposB (c : Char) : Bool :=
  decide (c = JsStr.aposChar) || decide (c = JsStr.rightQuoteChar) ||
    decide (c = JsStr.quoteChar)

/-- `normalizeTitle` of part_001 (lines 40–47): the cleaning pipeline only —
this revision has no stoplist removal. -/
def normalizeTitle (s : String) : String :=
  String.mk (JsStr.joinSep JsStr.spChar
    (JsStr.splitRuns JsStr.isKept (JsStr.cleanChars aposB s.data)))

def simTokens (a : String) : List (List Char) :=
  JsStr.splitRuns (fun c => !decide (c = JsStr.spChar)) (normalizeTitle a).data

/-- `tokenSimilarity` of part_001 (lines 49–58). -/
def tokenSimilarity (a b : String) : ℚ :=
  JsStr.jaccard (simTokens a).dedup (simTokens b).dedup

/-- The six rating signals of an item; `none` models any non-number value. -/
structure Signals where
  fa : Option ℚ
  imdb : Option ℚ
  rtCrit : Option ℚ
  rtAud : Option ℚ
  mcCrit : Option ℚ
  mcUser : Option ℚ
deriving DecidableEq

/-- `to10`: percent scales are divided by 10, non-numbers stay null. -/
def to10 (x : Option ℚ) : Option ℚ := x.map (· / 10)

/-- `Math.round` (half away from zero is irrelevant here; JS rounds half up,
`⌊x + 1/2⌋`). -/
def jsRound (q : ℚ) : ℤ := ⌊q + 1 / 2⌋

/-- `computeFinal` (part_001 lines 410–427): map the six signals to the 0–10
scale, renormalize the weights `0.25/0.25/0.125/0.125/0.125/0.125` over the
present ones, return `null` when no signal is present, else the weighted mean
rounded to 2 decimals. -/
def computeFinal (x : Signals) : Option ℚ :=
  let mfa := x.fa
  let mimdb := x.imdb
  let mrtCrit := to10 x.rtCrit
  let mrtAud := to10 x.rtAud
  let mmcCrit := to10 x.mcCrit
  let mmcUser := x.mcUser
  let wsum : ℚ :=
    (if mfa.isSome then (25 : ℚ) / 100 else 0) +
    (if mimdb.isSome then (25 : ℚ) / 100 else 0) +
    (if mrtCrit.isSome then (125 : ℚ) / 1000 else 0) +
    (if mrtAud.isSome then (125 : ℚ) / 1000 else 0) +
    (if mmcCrit.isSome then (125 : ℚ) / 1000 else 0) +
    (if mmcUser.isSome then (125 : ℚ) / 1000 else 0)
  if wsum = 0 then none
  else
    let total : ℚ :=
      (match mfa with | some v => (25 : ℚ) / 100 / wsum * v | none => 0) +
      (match mimdb with | some v => (25 : ℚ) / 100 / wsum * v | none => 0) +
      (match mrtCrit with | some v => (125 : ℚ) / 1000 / wsum * v | none => 0) +
      (match mrtAud with | some v => (125 : ℚ) / 1000 / wsum * v | none => 0) +
      (match mmcCrit with | some v => (125 : ℚ) / 1000 / wsum * v | none => 0) +
      (match mmcUser with | some v => (125 : ℚ) / 1000 / wsum * v | none => 0)
    some ((jsRound (total * 100) : ℚ) / 100)

/-- `coverage` (part_001 lines 429–434): counts the signals whose value is a
number and returns the string `` `${have}/6` ``. -/
def coverage (x : Signals) : String :=
  let n := [x.fa, x.imdb, x.rtCrit, x.rtAud, x.mcCrit, x.mcUser].foldl
    (fun acc v => if v.isSome then acc + 1 else acc) 0
  toString n ++ "/6"

/-- The count of present signals, as the specification states it. -/
def countNum (x : Signals) : ℕ :=
  [x.fa, x.imdb, x.rtCrit, x.rtAud, x.mcCrit, x.mcUser].countP Option.isSome

/-! ### Temporal window filter (part_001 lines 144–157) -/

def isLeap (y : ℤ) : Bool :=
  (decide (y % 4 = 0) && decide (y % 100 ≠ 0)) || decide (y % 400 = 0)

def daysInMonth (y : ℤ) (m : ℕ) : ℕ :=
  if m = 2 then (if isLeap y then 29 else 28)
  else if m = 4 ∨ m = 6 ∨ m = 9 ∨ m = 11 then 30
  else 31

def digitVal (c : Char) : ℕ := c.toNat - 48

/-- A strict `YYYY-MM-DD` parse with calendar validation: `new Date` yields an
Invalid Date for out-of-range month/day fields.  (The engine also accepts the
shorter `YYYY`/`YYYY-MM` forms; the pipeline only ever passes 10-character
dates sliced from TMDb ISO dates, so those forms are out of scope here.) -/
def parseYMD : List Char → Option (ℤ × ℕ × ℕ)
  | [a, b, c, d, s1, e, f, s2, g, h] =>
    if a.isDigit && b.isDigit && c.isDigit && d.isDigit && e.isDigit && f.isDigit &&
        g.isDigit && h.isDigit && decide (s1 = '-') && decide (s2 = '-') then
      let y : ℤ := (1000 * digitVal a + 100 * digitVal b + 10 * digitVal c + digitVal d : ℕ)
      let m : ℕ := 10 * digitVal e + digitVal f
      let dd : ℕ := 10 * digitVal g + digitVal h
      if 1 ≤ m ∧ m ≤ 12 ∧ 1 ≤ dd ∧ dd ≤ daysInMonth y m then some (y, m, dd) else none
    else none
  | _ => none

/-- Days from the civil epoch 1970-01-01 (proleptic Gregorian), the standard
days-from-civil algorithm; `new Date("YYYY-MM-DDT00:00:00Z").getTime()` is
this times 86400000. -/
def daysFromCivil (y : ℤ) (m d : ℕ) : ℤ :=
  let y2 : ℤ := if m ≤ 2 then y - 1 else y
  let era : ℤ := (if 0 ≤ y2 then y2 else y2 - 399) / 400
  let yoe : ℤ := y2 - era * 400
  let doy : ℤ := (153 * (if 2 < m then (m : ℤ) - 3 else (m : ℤ) + 9) + 2) / 5 + d - 1
  let doe : ℤ := yoe * 365 + yoe / 4 - yoe / 100 + doy
  era * 146097 + doe - 719468

/-- `parseISODate` of part_001 (lines 145–149): falsy input is null, the first
10 characters are parsed as a UTC midnight; the result is the epoch time in
milliseconds of that midnight. -/
def parseISODate (iso : String) : Option ℤ :=
  if iso = "" then none
  else (parseYMD (iso.data.take 10)).map (fun t => daysFromCivil t.1 t.2.1 t.2.2 * 86400000)

/-- `isInLastDays` (part_001 lines 152–157): `now` is the epoch time in
milliseconds of the reference date. -/
def isInLastDays (isoDate : String) (days : ℚ) (now : ℤ) : Bool :=
  match parseISODate isoDate with
  | none => false
  | some t =>
    let diffDays : ℚ := ((now - t : ℤ) : ℚ) / (1000 * 60 * 60 * 24)
    decide (0 ≤ diffDays) && decide (diffDays ≤ days)

/-! ### The FilmAffinity query cascade (part_001 lines 321–397) -/

/-- What `faGetRatingFromTitlePage` extracts from one candidate page. -/
structure FAPage where
  fa : Option ℚ
  faTitle : Option String
  faType : Option String
  faYear : Option Int
deriving DecidableEq

/-- A resolution result, also the value cached per `(query, desiredType)`. -/
structure FAResult where
  fa : Option ℚ
  faUrl : Option String
  faTitle : Option String
  faType : Option String
deriving DecidableEq

/-- The all-null negative result. -/
def negRes : FAResult := ⟨none, none, none, none⟩

/-- `x || null` on a nullable string. -/
def strOrNull : Option String → Option String
  | none => none
  | some s => if s = "" then none else some s

/-- The inline type rule of the cascade (line 358):
`desiredType && cand.faType && cand.faType !== desiredType` — it fires only
when both types are truthy (known) and differ. -/
def typeReject (desiredType faType : Option String) : Bool :=
  match desiredType, faType with
  | some d, some f => decide (d ≠ "") && decide (f ≠ "") && decide (f ≠ d)
  | _, _ => false

/-- `Number(year)` for the values the callers produce: `Number(null) = 0` (a
finite number!), a digit string is its value, anything else is `NaN`
(modelled as `none`). -/
def jsNumberYear : Option String → Option ℤ
  | none => some 0
  | some s =>
    if s = "" then some 0
    else if s.data.all Char.isDigit then
      some ((s.data.foldl (fun acc c => 10 * acc + digitVal c) 0 : ℕ) : ℤ)
    else none

/-- The candidate loop of `getFARating` (lines 350–385): score each page,
skipping type-rejects and low-similarity pages, and keep the first candidate
of strictly maximal score (`score > bestScore`, `bestScore` starts at `-∞`). -/
def bestOfUrls (page : String → FAPage) (es orig : Option String) (q : String)
    (year desiredType : Option String) (faUrls : List String) :
    Option (FAPage × String) :=
  (faUrls.foldl
    (fun acc faUrl =>
      let cand := page faUrl
      if typeReject desiredType cand.faType then acc
      else
        let sim := tokenSimilarity (es.getD (orig.getD q)) (cand.faTitle.getD "")
        if sim < (45 : ℚ) / 100 then acc
        else
          let score : ℚ :=
            sim * 100
              + (if normalizeTitle (es.getD "") ≠ "" ∧
                    normalizeTitle (es.getD "") = normalizeTitle (cand.faTitle.getD "")
                 then (25 : ℚ) else 0)
              + (match jsNumberYear year with
                 | some yItem =>
                   let yFA : ℤ := cand.faYear.getD 0
                   if (yItem - yFA).natAbs = 0 then (18 : ℚ)
                   else if (yItem - yFA).natAbs = 1 then 10 else 0
                 | none => 0)
              + (if cand.fa.isSome then (3 : ℚ) else 0)
          match acc with
          | none => some (cand, faUrl, score)
          | some (_, _, bs) => if score > bs then some (cand, faUrl, score) else acc)
    none).map (fun t => (t.1, t.2.1))

/-- The ordered query list (lines 327–332): `"{es} {year}"`, `es`,
`"{orig} {year}"`, `orig`, with falsy entries dropped by `.filter(Boolean)`. -/
def queriesOf (es orig year : Option String) : List String :=
  ([(match year, es with
     | some y, some e => if y ≠ "" ∧ e ≠ "" then some (e ++ " " ++ y) else none
     | _, _ => none),
    es,
    (match year, orig with
     | some y, some o => if y ≠ "" ∧ o ≠ "" then some (o ++ " " ++ y) else none
     | _, _ => none),
    orig].filterMap id).filter (fun q => q ≠ "")

/-- The cascade loop of `getFARating` (lines 336–394), with the candidate
search and page fetch as oracles and the per-run cache threaded explicitly.
A cache hit returns the cached value immediately (line 338) — also when that
value is the negative result. -/
def faLoop (searchUrls : String → List String) (page : String → FAPage)
    (es orig year desiredType : Option String) :
    List String → List (String × FAResult) → FAResult × List (String × FAResult)
  | [], cache => (negRes, cache)
  | q :: qs, cache =>
    let cacheKey := q ++ "::" ++
      (match desiredType with
       | some d => if d = "" then "any" else d
       | none => "any")
    match cache.lookup cacheKey with
    | some r => (r, cache)
    | none =>
      let faUrls := searchUrls q
      if faUrls = [] then
        faLoop searchUrls page es orig year desiredType qs ((cacheKey, negRes) :: cache)
      else
        let res : FAResult :=
          match bestOfUrls page es orig q year desiredType faUrls with
          | some (cand, faUrl) =>
            ⟨cand.fa, some faUrl, strOrNull cand.faTitle, strOrNull cand.faType⟩
          | none => negRes
        let cache2 := (cacheKey, res) :: cache
        if res.fa.isSome ∨ res.faTitle.isSome then (res, cache2)
        else faLoop searchUrls page es orig year desiredType qs cache2

/-- `getFARating` (lines 323–397).  `es`/`orig` are the `cleanTitle` outputs
for `titleEs`/`titleOriginal` (string or null), `year` the year string or
null. -/
def getFARating (searchUrls : String → List String) (page : String → FAPage)
    (es orig year desiredType : Option String)
    (cache : List (String × FAResult)) : FAResult × List (String × FAResult) :=
  faLoop searchUrls page es orig year desiredType (queriesOf es orig year) cache

end BuildV3

/-! ### Concrete instances used by the closed theorems below -/

/-- A movie item with no year, for the unknown-type counterexample. -/
def itC1 : FaMatch.Item := ⟨"dune", "movie", none⟩

/-- A candidate with the same title but unknown (not inferable) type. -/
def cC1 : FaMatch.FACandidate := ⟨"dune", "unknown", none, none, none⟩

/-- A signal record with exactly two numeric signals. -/
def sigC2 : BuildV3.Signals := ⟨some (71 / 10), some 8, none, none, none, none⟩

/-- The candidate search oracle for the cascade run: each query yields one
detail-page url. -/
def suC4 : String → List String := fun q =>
  if q = "dune 2024" then ["u1"] else if q = "dune" then ["u2"] else []

/-- The page oracle: the page found under the second query is a full match;
the one under the first query yields no data. -/
def pgC4 : String → BuildV3.FAPage := fun u =>
  if u = "u2" then ⟨some (39 / 5), some "dune", some "movie", some 2024⟩
  else ⟨none, none, none, none⟩

/-- A per-run cache that already holds a negative result for the first query
of the cascade. -/
def cacheC4 : List (String × BuildV3.FAResult) := [("dune 2024::movie", BuildV3.negRes)]

/-- A movie item matching `cW8` exactly. -/
def itW8 : FaMatch.Item := ⟨"dune", "movie", some 2024⟩

/-- A movie-typed candidate that the resolver accepts. -/
def cW8 : FaMatch.FACandidate := ⟨"dune", "movie", some 2024, some "u", some (78 / 10)⟩

/-! ## Helper lemmas -/

namespace JsStr

theorem splitAux_good (p : Char → Bool) (cs : List Char) :
    (∀ c ∈ (splitAux p cs).1, p c = true) ∧
      ∀ t ∈ (splitAux p cs).2, t ≠ [] ∧ ∀ c ∈ t, p c = true := by
  induction cs with
  | nil => exact ⟨by simp [splitAux], by simp [splitAux]⟩
  | cons c cs ih =>
    by_cases hc : p c = true
    · constructor
      · intro d hd
        simp only [splitAux, hc, if_true] at hd
        rcases List.mem_cons.mp hd with rfl | hd
        · exact hc
        · exact ih.1 d hd
      · intro t ht
        simp only [splitAux, hc, if_true] at ht
        exact ih.2 t ht
    · rw [Bool.not_eq_true] at hc
      constructor
      · intro d hd
        simp only [splitAux, hc] at hd
        simp at hd
      · intro t ht
        simp only [splitAux, hc] at ht
        simp only [Bool.false_eq_true, if_false] at ht
        by_cases h1 : (splitAux p cs).1 = []
        · rw [if_pos h1] at ht
          exact ih.2 t ht
        · rw [if_neg h1] at ht
          rcases List.mem_cons.mp ht with rfl | ht
          · exact ⟨h1, ih.1⟩
          · exact ih.2 t ht

theorem splitRuns_good (p : Char → Bool) (cs : List Char) :
    ∀ t ∈ splitRuns p cs, t ≠ [] ∧ ∀ c ∈ t, p c = true := by
  intro t ht
  have h := splitAux_good p cs
  unfold splitRuns at ht
  by_cases h1 : (splitAux p cs).1 = []
  · rw [if_pos h1] at ht
    exact h.2 t ht
  · rw [if_neg h1] at ht
    rcases List.mem_cons.mp ht with rfl | ht
    · exact ⟨h1, h.1⟩
    · exact h.2 t ht

theorem splitAux_append_all (p : Char → Bool) (t cs : List Char)
    (h : ∀ c ∈ t, p c = true) :
    splitAux p (t ++ cs) = (t ++ (splitAux p cs).1, (splitAux p cs).2) := by
  induction t with
  | nil => simp
  | cons c t ih =>
    have hc := h c (by simp)
    rw [List.cons_append]
    simp only [splitAux, ih (fun d hd => h d (by simp [hd])), hc, if_true]
    simp

theorem splitAux_sep (p : Char → Bool) (sp : Char) (hsp : p sp = false)
    (cs : List Char) : splitAux p (sp :: cs) = ([], splitRuns p cs) := by
  simp only [splitAux, splitRuns, hsp]
  simp

theorem joinSep_cons (sp : Char) (t : List Char) (ts : List (List Char)) :
    joinSep sp (t :: ts) = t ++ (if ts = [] then [] else sp :: joinSep sp ts) := by
  cases ts <;> simp [joinSep]

theorem splitRuns_joinSep (p : Char → Bool) (sp : Char) (hsp : p sp = false) :
    ∀ ts : List (List Char), (∀ t ∈ ts, t ≠ [] ∧ ∀ c ∈ t, p c = true) →
      splitRuns p (joinSep sp ts) = ts := by
  intro ts
  induction ts with
  | nil => intro _; rfl
  | cons t ts ih =>
    intro h
    rcases h t (by simp) with ⟨hne, hall⟩
    by_cases hts : ts = []
    · subst hts
      have h0 : splitAux p (t ++ []) = (t ++ (splitAux p ([] : List Char)).1,
          (splitAux p ([] : List Char)).2) := splitAux_append_all p t [] hall
      simp only [List.append_nil, splitAux] at h0
      simp only [joinSep]
      unfold splitRuns
      rw [h0]
      simp [hne]
    · rw [joinSep_cons, if_neg hts]
      have hrest := ih (fun x hx => h x (by simp [hx]))
      have h0 := splitAux_append_all p t (sp :: joinSep sp ts) hall
      rw [splitAux_sep p sp hsp, hrest] at h0
      unfold splitRuns
      rw [h0]
      simp [hne]

theorem mem_joinSep (sp : Char) :
    ∀ (ts : List (List Char)) (c : Char), c ∈ joinSep sp ts →
      c = sp ∨ ∃ t ∈ ts, c ∈ t := by
  intro ts
  induction ts with
  | nil => simp [joinSep]
  | cons t ts ih =>
    intro c hc
    rw [joinSep_cons] at hc
    rcases List.mem_append.mp hc with h | h
    · exact Or.inr ⟨t, by simp, h⟩
    · by_cases hts : ts = []
      · rw [if_pos hts] at h
        simp at h
      · rw [if_neg hts] at h
        rcases List.mem_cons.mp h with rfl | h
        · exact Or.inl rfl
        · rcases ih c h with h | ⟨x, hx, hcx⟩
          · exact Or.inl h
          · exact Or.inr ⟨x, by simp [hx], hcx⟩

theorem isKept_toNat {c : Char} (h : isKept c = true ∨ c = spChar) :
    (97 ≤ c.toNat ∧ c.toNat ≤ 122) ∨ (48 ≤ c.toNat ∧ c.toNat ≤ 57) ∨ c.toNat = 32 := by
  rcases h with h | h
  · simp only [isKept, decide_eq_true_eq] at h
    tauto
  · subst h
    right; right
    decide

theorem jsToLowerChar_id {c : Char} (h : isKept c = true ∨ c = spChar) :
    jsToLowerChar c = c := by
  have hn := isKept_toNat h
  unfold jsToLowerChar
  rw [if_neg (by omega), if_neg (by omega)]

theorem lookup_eq_none_of {β : Type} (l : List (Char × β)) (c : Char)
    (h : ∀ q ∈ l, q.1 ≠ c) : l.lookup c = none := by
  induction l with
  | nil => rfl
  | cons kv l ih =>
    rcases kv with ⟨k, v⟩
    have hk : (c == k) = false :=
      beq_eq_false_iff_ne.mpr (Ne.symm (h ⟨k, v⟩ (by simp)))
    simp only [List.lookup, hk]
    exact ih (fun q hq => h q (by simp [hq]))

theorem stripTable_keys_ge : ∀ q ∈ stripTable, 224 ≤ q.1.toNat := by decide

theorem stripDiacriticsChar_id {c : Char} (h : isKept c = true ∨ c = spChar) :
    stripDiacriticsChar c = c := by
  have hn := isKept_toNat h
  have hl : stripTable.lookup c = none := by
    apply lookup_eq_none_of
    intro q hq e
    have := stripTable_keys_ge q hq
    rw [e] at this
    omega
  simp [stripDiacriticsChar, hl]

theorem ampExpand_id {c : Char} (h : isKept c = true ∨ c = spChar) :
    ampExpand c = [c] := by
  have hn := isKept_toNat h
  have hne : c ≠ ampChar := by
    intro e
    rw [e] at hn
    revert hn
    decide
  simp [ampExpand, hne]

theorem cleanChars_cons (apos : Char → Bool) (c : Char) (cs : List Char) :
    cleanChars apos (c :: cs) =
      ((ampExpand (stripDiacriticsChar (jsToLowerChar c))).filter (fun x => !apos x)) ++
        cleanChars apos cs := by
  simp [cleanChars]

theorem cleanChars_fixed (apos : Char → Bool)
    (happ : ∀ c : Char, isKept c = true ∨ c = spChar → apos c = false) :
    ∀ cs : List Char, (∀ c ∈ cs, isKept c = true ∨ c = spChar) →
      cleanChars apos cs = cs := by
  intro cs
  induction cs with
  | nil => intro _; rfl
  | cons c cs ih =>
    intro h
    have hc := h c (by simp)
    rw [cleanChars_cons, jsToLowerChar_id hc, stripDiacriticsChar_id hc, ampExpand_id hc]
    rw [ih (fun d hd => h d (by simp [hd]))]
    simp [happ c hc]

theorem jaccard_self (A : List (List Char)) (h : A ≠ []) : jaccard A A = 1 := by
  have hlen : A.length ≠ 0 := by
    simp [List.length_eq_zero, h]
  unfold jaccard
  rw [if_neg (by tauto)]
  have hcount : A.countP (fun t => decide (t ∈ A)) = A.length := by
    rw [List.countP_eq_length]
    intro a ha
    simpa using ha
  simp only [hcount]
  have hu : A.length + A.length - A.length = A.length := by omega
  rw [hu, if_neg hlen]
  rw [div_self (by exact_mod_cast hlen)]

theorem jaccard_nil_right (A : List (List Char)) : jaccard A [] = 0 := by
  unfold jaccard
  rw [if_pos (by simp)]

end JsStr

namespace TitleNormalize

theorem aposM_false {c : Char} (h : JsStr.isKept c = true ∨ c = JsStr.spChar) :
    aposM c = false := by
  have hn := JsStr.isKept_toNat h
  have h1 : c ≠ JsStr.aposChar := by
    intro e; rw [e] at hn; revert hn; decide
  have h2 : c ≠ JsStr.rightQuoteChar := by
    intro e; rw [e] at hn; revert hn; decide
  simp [aposM, h1, h2]

theorem removeNoise_subset : ∀ ts : List (List Char), ∀ t ∈ removeNoise ts, t ∈ ts := by
  intro ts
  induction ts using removeNoise.induct with
  | case1 => simp [removeNoise]
  | case2 t h1 =>
    intro x hx
    rw [removeNoise, if_pos h1] at hx
    simp at hx
  | case3 t h1 =>
    intro x hx
    rw [removeNoise, if_neg h1] at hx
    exact hx
  | case4 t u h1 ih =>
    intro x hx
    rw [removeNoise, if_pos h1] at hx
    exact List.mem_cons_of_mem _ (ih x hx)
  | case5 t u h1 h2 =>
    intro x hx
    rw [removeNoise, if_neg h1, if_pos h2] at hx
    simp at hx
  | case6 t u h1 h2 ih =>
    intro x hx
    rw [removeNoise, if_neg h1, if_neg h2] at hx
    rcases List.mem_cons.mp hx with rfl | hx
    · exact List.mem_cons_self ..
    · exact List.mem_cons_of_mem _ (ih x hx)
  | case7 t u v ts3 h1 ih =>
    intro x hx
    rw [removeNoise, if_pos h1] at hx
    exact List.mem_cons_of_mem _ (ih x hx)
  | case8 t u v ts3 h1 h2 ih =>
    intro x hx
    rw [removeNoise, if_neg h1, if_pos h2] at hx
    exact List.mem_cons_of_mem _ (List.mem_cons_of_mem _ (ih x hx))
  | case9 t u v ts3 h1 h2 h3 ih =>
    intro x hx
    rw [removeNoise, if_neg h1, if_neg h2, if_pos h3] at hx
    exact List.mem_cons_of_mem _ (List.mem_cons_of_mem _ (List.mem_cons_of_mem _ (ih x hx)))
  | case10 t u v ts3 h1 h2 h3 ih =>
    intro x hx
    rw [removeNoise, if_neg h1, if_neg h2, if_neg h3] at hx
    rcases List.mem_cons.mp hx with rfl | hx
    · exact List.mem_cons_self ..
    · exact List.mem_cons_of_mem _ (ih x hx)

theorem noNoise_parts {t : List Char} {ts : List (List Char)}
    (h : noNoise (t :: ts) = true) :
    noiseHead (t :: ts) = false ∧ noNoise ts = true := by
  rw [noNoise, Bool.and_eq_true, Bool.not_eq_true'] at h
  exact h

theorem removeNoise_eq_of_noNoise : ∀ ts : List (List Char),
    noNoise ts = true → removeNoise ts = ts := by
  intro ts
  induction ts using removeNoise.induct with
  | case1 => intro _; rfl
  | case2 t h1 =>
    intro h
    exfalso
    have := (noNoise_parts h).1
    rcases h1 with e | e | e <;> simp [noiseHead, e] at this
  | case3 t h1 =>
    intro _
    rw [removeNoise, if_neg h1]
  | case4 t u h1 ih =>
    intro h
    exfalso
    have := (noNoise_parts h).1
    rcases h1 with e | e | e <;> simp [noiseHead, e] at this
  | case5 t u h1 h2 =>
    intro h
    exfalso
    have := (noNoise_parts h).1
    rcases h2 with ⟨e1, e2⟩ | ⟨e1, e2⟩ <;> simp [noiseHead, e1, e2] at this
  | case6 t u h1 h2 ih =>
    intro h
    rw [removeNoise, if_neg h1, if_neg h2, ih (noNoise_parts h).2]
  | case7 t u v ts3 h1 ih =>
    intro h
    exfalso
    have := (noNoise_parts h).1
    rcases h1 with e | e | e <;> simp [noiseHead, e] at this
  | case8 t u v ts3 h1 h2 ih =>
    intro h
    exfalso
    have := (noNoise_parts h).1
    rcases h2 with ⟨e1, e2⟩ | ⟨e1, e2⟩ <;> simp [noiseHead, e1, e2] at this
  | case9 t u v ts3 h1 h2 h3 ih =>
    intro h
    exfalso
    have := (noNoise_parts h).1
    rcases h3 with ⟨e1, e2, e3⟩
    simp [noiseHead, e1, e2, e3] at this
  | case10 t u v ts3 h1 h2 h3 ih =>
    intro h
    rw [removeNoise, if_neg h1, if_neg h2, if_neg h3, ih (noNoise_parts h).2]

theorem normTokens_good (s : String) :
    ∀ t ∈ normTokens s, t ≠ [] ∧ ∀ c ∈ t, JsStr.isKept c = true :=
  fun t ht => JsStr.splitRuns_good _ _ t (removeNoise_subset _ t ht)

theorem normalizeTitle_idem_of_noNoise (s : String)
    (h : noNoise (normTokens s) = true) :
    normalizeTitle (normalizeTitle s) = normalizeTitle s := by
  have hgood := normTokens_good s
  have hchars : ∀ c ∈ JsStr.joinSep JsStr.spChar (normTokens s),
      JsStr.isKept c = true ∨ c = JsStr.spChar := by
    intro c hc
    rcases JsStr.mem_joinSep _ _ c hc with rfl | ⟨t, ht, hct⟩
    · exact Or.inr rfl
    · exact Or.inl ((hgood t ht).2 c hct)
  have hclean : JsStr.cleanChars aposM (JsStr.joinSep JsStr.spChar (normTokens s)) =
      JsStr.joinSep JsStr.spChar (normTokens s) :=
    JsStr.cleanChars_fixed aposM (fun c hc => aposM_false hc) _ hchars
  have hsplit : JsStr.splitRuns JsStr.isKept (JsStr.joinSep JsStr.spChar (normTokens s)) =
      normTokens s :=
    JsStr.splitRuns_joinSep JsStr.isKept JsStr.spChar (by decide) _ hgood
  have hT : normTokens (normalizeTitle s) = normTokens s := by
    show removeNoise (JsStr.splitRuns JsStr.isKept
      (JsStr.cleanChars aposM (JsStr.joinSep JsStr.spChar (normTokens s)))) = normTokens s
    rw [hclean, hsplit]
    exact removeNoise_eq_of_noNoise _ h
  show String.mk (JsStr.joinSep JsStr.spChar (normTokens (normalizeTitle s))) = _
  rw [hT]
  rfl

end TitleNormalize

namespace FaMatch

theorem insertDesc_head (x : FACandidate × ℚ) (l : List (FACandidate × ℚ)) :
    (insertDesc x l).head? =
      some (match l.head? with
            | none => x
            | some y => if x.2 ≥ y.2 then x else y) := by
  cases l with
  | nil => rfl
  | cons y ys =>
    by_cases h : x.2 ≥ y.2 <;> simp [insertDesc, h]

theorem sortDesc_head (l : List (FACandidate × ℚ)) :
    (sortDesc l).head? = firstMax l := by
  induction l with
  | nil => rfl
  | cons x xs ih =>
    show (insertDesc x (sortDesc xs)).head? = _
    rw [insertDesc_head, ih, firstMax]
    cases h : firstMax xs with
    | none => rfl
    | some m =>
      by_cases hm : m.2 > x.2
      · have hge : ¬x.2 ≥ m.2 := not_le.mpr hm
        simp [hm, hge]
      · have hge : x.2 ≥ m.2 := not_lt.mp hm
        simp [hm, hge]

theorem firstMax_eq_none_iff (l : List (FACandidate × ℚ)) :
    firstMax l = none ↔ l = [] := by
  cases l with
  | nil => simp [firstMax]
  | cons x xs =>
    simp only [firstMax]
    cases firstMax xs with
    | none => simp
    | some m =>
      by_cases h : m.2 > x.2 <;> simp [h]

theorem firstMax_split (l : List (FACandidate × ℚ)) (m : FACandidate × ℚ)
    (h : firstMax l = some m) :
    ∃ l1 l2, l = l1 ++ m :: l2 ∧ (∀ y ∈ l1, y.2 < m.2) ∧ ∀ y ∈ l2, y.2 ≤ m.2 := by
  induction l generalizing m with
  | nil => cases h
  | cons x xs ih =>
    rw [firstMax] at h
    cases hx : firstMax xs with
    | none =>
      rw [hx] at h
      cases h
      have hnil : xs = [] := (firstMax_eq_none_iff xs).mp hx
      subst hnil
      exact ⟨[], [], rfl, by simp, by simp⟩
    | some m' =>
      rw [hx] at h
      dsimp only at h
      rcases ih m' hx with ⟨l1, l2, hsplit, hlt, hle⟩
      by_cases hgt : m'.2 > x.2
      · rw [if_pos hgt] at h
        cases h
        refine ⟨x :: l1, l2, by simp [hsplit], ?_, hle⟩
        intro y hy
        rcases List.mem_cons.mp hy with rfl | hy
        · exact hgt
        · exact hlt y hy
      · rw [if_neg hgt] at h
        cases h
        have hm'le : m'.2 ≤ x.2 := not_lt.mp hgt
        refine ⟨[], xs, rfl, by simp, ?_⟩
        intro y hy
        rw [hsplit] at hy
        rcases List.mem_append.mp hy with hy | hy
        · exact le_trans (le_of_lt (hlt y hy)) hm'le
        · rcases List.mem_cons.mp hy with rfl | hy
          · exact hm'le
          · exact le_trans (hle y hy) hm'le

theorem firstMax_mem_max (l : List (FACandidate × ℚ)) (m : FACandidate × ℚ)
    (h : firstMax l = some m) : m ∈ l ∧ ∀ y ∈ l, y.2 ≤ m.2 := by
  rcases firstMax_split l m h with ⟨l1, l2, rfl, h1, h2⟩
  constructor
  · simp
  · intro y hy
    rcases List.mem_append.mp hy with hy | hy
    · exact le_of_lt (h1 y hy)
    · rcases List.mem_cons.mp hy with rfl | hy
      · exact le_refl _
      · exact h2 y hy

/-- `pickBestFA` equals the single-pass reference resolver: the head of the
stable descending sort is the earliest maximum-score element. -/
theorem pickBestFA_eq_ref (item : Item) (cands : List FACandidate) (opts : Option ℚ) :
    pickBestFA item cands opts = pickBestFARef item cands opts := by
  unfold pickBestFA pickBestFARef
  by_cases hf : (cands.filter (fun c => !hardReject item c)).isEmpty
  · have hnil : cands.filter (fun c => !hardReject item c) = [] := by
      simpa [List.isEmpty_iff] using hf
    rw [if_pos hf, hnil]
    rfl
  · rw [if_neg hf, sortDesc_head]

/-- The pair found by `firstMax` over the scored survivors is a survivor with
its own score, maximal among all survivors. -/
theorem firstMax_scored (item : Item) (cands : List FACandidate) (m : FACandidate × ℚ)
    (h : firstMax ((cands.filter (fun c => !hardReject item c)).map
        (fun c => (c, scoreCandidate item c))) = some m) :
    m.1 ∈ cands.filter (fun c => !hardReject item c) ∧
      m.2 = scoreCandidate item m.1 ∧
      ∀ c ∈ cands.filter (fun c => !hardReject item c),
        scoreCandidate item c ≤ scoreCandidate item m.1 := by
  rcases firstMax_mem_max _ _ h with ⟨hmem, hmax⟩
  rcases List.mem_map.mp hmem with ⟨c, hc, hcm⟩
  have hm1 : m.1 = c := by rw [← hcm]
  have hm2 : m.2 = scoreCandidate item c := by rw [← hcm]
  refine ⟨by rw [hm1]; exact hc, by rw [hm1, hm2], ?_⟩
  intro d hd
  have := hmax (d, scoreCandidate item d) (List.mem_map.mpr ⟨d, hd, rfl⟩)
  rw [hm2, ← hm1] at this
  exact this

theorem hardReject_type (item : Item) (cand : FACandidate)
    (h : hardReject item cand = false) :
    (item.type = "movie" → cand.type = "movie") ∧
      (item.type = "series" → cand.type = "series") := by
  unfold hardReject at h
  constructor
  · intro ht
    by_contra hne
    rw [if_pos ⟨ht, hne⟩] at h
    cases h
  · intro ht
    by_cases h1 : item.type = "movie" ∧ cand.type ≠ "movie"
    · rw [if_pos h1] at h
      cases h
    · rw [if_neg h1] at h
      by_contra hne
      rw [if_pos ⟨ht, hne⟩] at h
      cases h

theorem map_split {α β : Type} (f : α → β) :
    ∀ (xs : List α) (l1 : List β) (p : β) (l2 : List β),
      xs.map f = l1 ++ p :: l2 →
      ∃ a1 b a2, xs = a1 ++ b :: a2 ∧ a1.map f = l1 ∧ f b = p ∧ a2.map f = l2 := by
  intro xs
  induction xs with
  | nil =>
    intro l1 p l2 h
    simp at h
  | cons x xs ih =>
    intro l1 p l2 h
    cases l1 with
    | nil =>
      simp only [List.map_cons, List.nil_append, List.cons.injEq] at h
      exact ⟨[], x, xs, rfl, rfl, h.1, h.2⟩
    | cons y l1 =>
      simp only [List.map_cons, List.cons_append, List.cons.injEq] at h
      rcases ih l1 p l2 h.2 with ⟨a1, b, a2, e1, e2, e3, e4⟩
      exact ⟨x :: a1, b, a2, by simp [e1], by simp [h.1, e2], e3, e4⟩

/-- If `pickBestFA` returns `some b`, then `firstMax` of the scored survivors
is `(b, scoreCandidate item b)` and `b` clears the similarity floor. -/
theorem pickBestFA_some_firstMax (item : Item) (cands : List FACandidate)
    (opts : Option ℚ) (b : FACandidate) (h : pickBestFA item cands opts = some b) :
    firstMax ((cands.filter (fun c => !hardReject item c)).map
        (fun c => (c, scoreCandidate item c))) = some (b, scoreCandidate item b) ∧
      ¬ TitleNormalize.tokenSimilarity item.title b.title < opts.getD (45 / 100) := by
  rw [pickBestFA_eq_ref] at h
  unfold pickBestFARef at h
  cases hfm : firstMax ((cands.filter (fun c => !hardReject item c)).map
      (fun c => (c, scoreCandidate item c))) with
  | none =>
    rw [hfm] at h
    cases h
  | some m =>
    rcases m with ⟨bc, bs⟩
    rw [hfm] at h
    dsimp only at h
    by_cases hsim : TitleNormalize.tokenSimilarity item.title bc.title < opts.getD (45 / 100)
    · rw [if_pos hsim] at h
      cases h
    · rw [if_neg hsim] at h
      cases h
      rcases firstMax_scored item cands (b, bs) hfm with ⟨_, h2, _⟩
      dsimp only at h2
      exact ⟨by rw [h2], hsim⟩

end FaMatch

/-! ## The claims -/

unseal Rat.mul Rat.inv Rat.add in
/-- C1 (counterexample): the claim says a candidate of unknown type is never
hard-rejected and may still be selected by `pickBestFA`.  In `fa_match.js`,
however, `hardReject` requires `cand.type` to equal the item's known type
exactly, so this unknown-type candidate — whose title similarity is a perfect
1, with no year conflict possible (`itC1.year = none`) — is excluded on type
grounds alone and the resolver returns null instead of selecting it. -/
theorem pickBestFA_unknownType_rejected_cx :
    FaMatch.hardReject itC1 cC1 = true ∧ cC1.type = "unknown" ∧ itC1.year = none ∧
      TitleNormalize.tokenSimilarity itC1.title cC1.title = 1 ∧
      FaMatch.pickBestFA itC1 [cC1] none = none := by
  decide

/-- C1 (amended): the only-known-mismatch rule holds for the inline type rule
of `getFARating` (part_001 line 358): it fires exactly when both the desired
type and the candidate's detected type are known (truthy) and differ.  In
`pickBestFA` (fa_match.js), by contrast, the type hard-reject fires whenever
`item.type` is `"movie"` or `"series"` and the candidate's type is not equal
to it — including candidates whose type is unknown. -/
theorem typeHardReject_amended :
    (∀ d f : Option String, BuildV3.typeReject d f = true ↔
        ∃ dv fv, d = some dv ∧ dv ≠ "" ∧ f = some fv ∧ fv ≠ "" ∧ fv ≠ dv) ∧
      ∀ (it : FaMatch.Item) (c : FaMatch.FACandidate),
        it.type = "movie" ∨ it.type = "series" → c.type ≠ it.type →
          FaMatch.hardReject it c = true := by
  constructor
  · intro d f
    cases d <;> cases f
    · simp [BuildV3.typeReject]
    · simp [BuildV3.typeReject]
    · simp [BuildV3.typeReject]
    · simp only [BuildV3.typeReject, Bool.and_eq_true, decide_eq_true_eq,
        Option.some.injEq]
      constructor
      · rintro ⟨⟨h1, h2⟩, h3⟩
        exact ⟨_, _, rfl, h1, rfl, h2, h3⟩
      · rintro ⟨dv, fv, rfl, h1, rfl, h2, h3⟩
        exact ⟨⟨h1, h2⟩, h3⟩
  · intro it c hit hne
    unfold FaMatch.hardReject
    rcases hit with h | h
    · rw [if_pos ⟨h, by rw [← h]; exact hne⟩]
    · have h1 : ¬(it.type = "movie" ∧ c.type ≠ "movie") := by
        rintro ⟨e, _⟩
        rw [h] at e
        simp at e
      rw [if_neg h1, if_pos ⟨h, by rw [← h]; exact hne⟩]

/-- C2 (counterexample): the claim says `coverage` returns an integer in 0..6.
The function returns the string `"2/6"` for a record with two numeric
signals — a string of the form `"h/6"`, not the integer `2`. -/
theorem coverage_returns_string_cx :
    BuildV3.coverage sigC2 = "2/6" ∧ toString (2 : ℕ) ≠ "2/6" := by
  constructor
  · rfl
  · decide

/-- C2 (amended): for every signal record, `coverage` returns the string
`"h/6"` where `h` is the count (0..6) of the six slots `fa`, `imdb`,
`rtCrit`, `rtAud`, `mcCrit`, `mcUser` whose value is a number. -/
theorem coverage_amended (x : BuildV3.Signals) :
    BuildV3.coverage x = toString (BuildV3.countNum x) ++ "/6" ∧
      BuildV3.countNum x ≤ 6 := by
  have hle : BuildV3.countNum x ≤ 6 := by
    have h := List.countP_le_length (Option.isSome)
      (l := [x.fa, x.imdb, x.rtCrit, x.rtAud, x.mcCrit, x.mcUser])
    simpa [BuildV3.countNum] using h
  refine ⟨?_, hle⟩
  rcases x with ⟨fa, imdb, rc, ra, mc, mu⟩
  cases fa <;> cases imdb <;> cases rc <;> cases ra <;> cases mc <;> cases mu <;> rfl

/-- C3: the resolver returns, if anything, a surviving candidate of maximal
score whose similarity to the target title is not below
`opts.minTitleSim ?? 0.45`; and whenever the maximum-score surviving candidate
(`bestSurvivor`) is below the floor, the resolver returns null rather than it
or any other candidate. -/
theorem pickBestFA_max_score_and_floor (item : FaMatch.Item)
    (cands : List FaMatch.FACandidate) (opts : Option ℚ) :
    (∀ b, FaMatch.pickBestFA item cands opts = some b →
        b ∈ cands.filter (fun c => !FaMatch.hardReject item c) ∧
        (∀ c ∈ cands.filter (fun c => !FaMatch.hardReject item c),
          FaMatch.scoreCandidate item c ≤ FaMatch.scoreCandidate item b) ∧
        ¬ TitleNormalize.tokenSimilarity item.title b.title < opts.getD (45 / 100)) ∧
      (∀ b, FaMatch.bestSurvivor item cands = some b →
        b ∈ cands.filter (fun c => !FaMatch.hardReject item c) ∧
        ∀ c ∈ cands.filter (fun c => !FaMatch.hardReject item c),
          FaMatch.scoreCandidate item c ≤ FaMatch.scoreCandidate item b) ∧
      ∀ b, FaMatch.bestSurvivor item cands = some b →
        TitleNormalize.tokenSimilarity item.title b.title < opts.getD (45 / 100) →
        FaMatch.pickBestFA item cands opts = none := by
  refine ⟨?_, ?_, ?_⟩
  · intro b hb
    rcases FaMatch.pickBestFA_some_firstMax item cands opts b hb with ⟨hfm, hsim⟩
    rcases FaMatch.firstMax_scored item cands _ hfm with ⟨h1, _, h3⟩
    exact ⟨h1, h3, hsim⟩
  · intro b hb
    unfold FaMatch.bestSurvivor at hb
    cases hfm : FaMatch.firstMax ((cands.filter (fun c => !FaMatch.hardReject item c)).map
        (fun c => (c, FaMatch.scoreCandidate item c))) with
    | none =>
      rw [hfm] at hb
      cases hb
    | some m =>
      rw [hfm] at hb
      simp only [Option.map_some'] at hb
      cases hb
      rcases FaMatch.firstMax_scored item cands m hfm with ⟨h1, _, h3⟩
      exact ⟨h1, h3⟩
  · intro b hb hsim
    rw [FaMatch.pickBestFA_eq_ref]
    unfold FaMatch.bestSurvivor at hb
    unfold FaMatch.pickBestFARef
    cases hfm : FaMatch.firstMax ((cands.filter (fun c => !FaMatch.hardReject item c)).map
        (fun c => (c, FaMatch.scoreCandidate item c))) with
    | none => rfl
    | some m =>
      rcases m with ⟨bc, bs⟩
      rw [hfm] at hb
      simp only [Option.map_some'] at hb
      cases hb
      dsimp only
      rw [if_pos hsim]

unseal Rat.mul Rat.inv Rat.add in
/-- C4: the claim says a negative result for one query — cached or fresh —
does not stop the cascade.  `getFARating` returns a cache hit unconditionally
(line 338), so with the first query's key cached negative the cascade stops
and returns the all-null result, while the very same run on an empty cache
continues past the fresh negative for the first query and finds the match
under the second query. -/
theorem getFARating_cached_negative_stops_cascade :
    (BuildV3.getFARating suC4 pgC4 (some "dune") none (some "2024") (some "movie")
        cacheC4).1 = BuildV3.negRes ∧
      (BuildV3.getFARating suC4 pgC4 (some "dune") none (some "2024") (some "movie")
        []).1 = ⟨some (39 / 5), some "u2", some "dune", some "movie"⟩ := by
  decide

/-- C5 (counterexample): `normalizeTitle` is not idempotent: removing
`"temporada"` from `"mini temporada serie"` creates the new stoplist
occurrence `"mini serie"`, which only the second application removes. -/
theorem normalizeTitle_not_idempotent_cx :
    TitleNormalize.normalizeTitle "mini temporada serie" = "mini serie" ∧
      TitleNormalize.normalizeTitle "mini serie" = "" ∧
      TitleNormalize.normalizeTitle (TitleNormalize.normalizeTitle "mini temporada serie") ≠
        TitleNormalize.normalizeTitle "mini temporada serie" := by
  decide

/-- C5 (amended): `normalizeTitle` is idempotent on every string whose
normalized output is free of stoplist occurrences (`noNoise`), which a single
removal pass can otherwise create. -/
theorem normalizeTitle_idempotent_amended (s : String)
    (h : TitleNormalize.noNoise (TitleNormalize.normTokens s) = true) :
    TitleNormalize.normalizeTitle (TitleNormalize.normalizeTitle s) =
      TitleNormalize.normalizeTitle s :=
  TitleNormalize.normalizeTitle_idem_of_noNoise s h

/-- C5 (witness): the amended idempotence at a concrete noise-free title. -/
theorem normalizeTitle_idempotent_amended_w :
    TitleNormalize.normalizeTitle (TitleNormalize.normalizeTitle "Matame: una Pelicula 2024") =
      TitleNormalize.normalizeTitle "Matame: una Pelicula 2024" :=
  normalizeTitle_idempotent_amended "Matame: una Pelicula 2024" (by decide)

/-- C6 (counterexample): `"!"` is a non-empty string, yet
`tokenSimilarity("!", "!")` is 0, not 1 — its normalized token set is empty. -/
theorem tokenSimilarity_nonempty_zero_cx :
    TitleNormalize.tokenSimilarity "!" "!" = 0 ∧ ("!" : String) ≠ "" := by
  constructor
  · rfl
  · decide

/-- C6 (amended): `tokenSimilarity a a = 1` for every string whose normalized
token list is non-empty (rather than for every non-empty string), and
`tokenSimilarity a "" = 0` for every string. -/
theorem tokenSimilarity_refl_amended :
    (∀ a : String, TitleNormalize.simTokens a ≠ [] →
        TitleNormalize.tokenSimilarity a a = 1) ∧
      ∀ a : String, TitleNormalize.tokenSimilarity a "" = 0 := by
  constructor
  · intro a ha
    unfold TitleNormalize.tokenSimilarity
    exact JsStr.jaccard_self _ (by simpa [List.dedup_eq_nil] using ha)
  · intro a
    unfold TitleNormalize.tokenSimilarity
    have h0 : TitleNormalize.simTokens "" = [] := by decide
    rw [h0]
    exact JsStr.jaccard_nil_right _

/-- C7: `isInLastDays` parses `dateISO` (format `YYYY-MM-DD`, sliced to 10
characters) as midnight UTC, returns false when the date is absent or
unparsable, and otherwise returns true iff
`0 ≤ (now − date) / 86400000 ≤ days`, both boundary days included. -/
theorem isInLastDays_window_spec (iso : String) (days : ℚ) (now : ℤ) :
    (BuildV3.isInLastDays iso days now = true ↔
        ∃ t, BuildV3.parseISODate iso = some t ∧
          0 ≤ now - t ∧ ((now - t : ℤ) : ℚ) ≤ days * 86400000) ∧
      (BuildV3.parseISODate iso = none → BuildV3.isInLastDays iso days now = false) := by
  have hc : (0 : ℚ) < 1000 * 60 * 60 * 24 := by norm_num
  constructor
  · cases hp : BuildV3.parseISODate iso with
    | none => simp [BuildV3.isInLastDays, hp]
    | some t =>
      simp only [BuildV3.isInLastDays, hp]
      rw [Bool.and_eq_true, decide_eq_true_eq, decide_eq_true_eq]
      constructor
      · rintro ⟨h0, hd⟩
        refine ⟨t, rfl, ?_, ?_⟩
        · have := (le_div_iff₀ hc).mp h0
          rw [zero_mul] at this
          exact_mod_cast this
        · have := (div_le_iff₀ hc).mp hd
          calc ((now - t : ℤ) : ℚ) ≤ days * (1000 * 60 * 60 * 24) := this
            _ = days * 86400000 := by norm_num
      · rintro ⟨t', ht', h0, hd⟩
        obtain rfl := Option.some.inj ht'
        constructor
        · rw [le_div_iff₀ hc, zero_mul]
          exact_mod_cast h0
        · rw [div_le_iff₀ hc]
          calc ((now - t : ℤ) : ℚ) ≤ days * 86400000 := hd
            _ = days * (1000 * 60 * 60 * 24) := by norm_num
  · intro h
    simp [BuildV3.isInLastDays, h]

unseal Rat.mul Rat.inv in
/-- The two boundary examples of the window filter, with `now` the epoch
milliseconds of 2024-01-10T00:00:00Z (day 19732): 2024-01-01 is 9 days back
(inside a 14-day window), 2023-12-01 is 40 days back (outside). -/
theorem isInLastDays_boundary_examples :
    BuildV3.isInLastDays "2024-01-01" 14 (19732 * 86400000) = true ∧
      BuildV3.isInLastDays "2023-12-01" 14 (19732 * 86400000) = false := by
  decide

/-- C8: a candidate whose type mismatches the item's known type is never
returned, no matter its score: a `"movie"` item never resolves to a
`"series"` candidate and vice versa. -/
theorem pickBestFA_no_type_mismatch (item : FaMatch.Item)
    (cands : List FaMatch.FACandidate) (opts : Option ℚ) (b : FaMatch.FACandidate)
    (h : FaMatch.pickBestFA item cands opts = some b) :
    (item.type = "movie" → b.type ≠ "series") ∧
      (item.type = "series" → b.type ≠ "movie") := by
  rcases FaMatch.pickBestFA_some_firstMax item cands opts b h with ⟨hfm, _⟩
  rcases FaMatch.firstMax_scored item cands _ hfm with ⟨h1, _, _⟩
  have hr : FaMatch.hardReject item b = false := by
    have := (List.mem_filter.mp h1).2
    simpa using this
  rcases FaMatch.hardReject_type item b hr with ⟨hm, hs⟩
  constructor
  · intro ht
    rw [hm ht]
    decide
  · intro ht
    rw [hs ht]
    decide

unseal Rat.mul Rat.inv Rat.add in
/-- C8 (witness): a concrete movie item resolved to a movie candidate, whose
type is therefore not `"series"`. -/
theorem pickBestFA_no_type_mismatch_w :
    (itW8.type = "movie" → cW8.type ≠ "series") ∧
      (itW8.type = "series" → cW8.type ≠ "movie") :=
  pickBestFA_no_type_mismatch itW8 [cW8] none cW8 (by decide)

/-- C9: `computeFinal` returns null exactly when none of the six signals is a
number (after scale mapping, which preserves presence), i.e. exactly when the
coverage count is 0 — so a non-null composite implies coverage ≥ 1. -/
theorem computeFinal_none_iff_no_signals (x : BuildV3.Signals) :
    BuildV3.computeFinal x = none ↔ BuildV3.countNum x = 0 := by
  rcases x with ⟨fa, imdb, rc, ra, mc, mu⟩
  cases fa <;> cases imdb <;> cases rc <;> cases ra <;> cases mc <;> cases mu <;>
    simp [BuildV3.computeFinal, BuildV3.countNum, BuildV3.to10] <;> norm_num

/-- C10: the resolver is a pure function of `(item, candidates, opts)` — it
equals the single-pass reference `pickBestFARef`, so equal inputs give the
identical result — and on exact score ties the candidate occurring earliest in
the input survivor list is selected: every survivor strictly before the
returned one scores strictly less (an equal score earlier would have won). -/
theorem pickBestFA_deterministic_stable (item : FaMatch.Item)
    (cands : List FaMatch.FACandidate) (opts : Option ℚ) :
    FaMatch.pickBestFA item cands opts = FaMatch.pickBestFARef item cands opts ∧
      ∀ b, FaMatch.pickBestFA item cands opts = some b →
        ∃ l1 l2, cands.filter (fun c => !FaMatch.hardReject item c) = l1 ++ b :: l2 ∧
          (∀ c ∈ l1, FaMatch.scoreCandidate item c < FaMatch.scoreCandidate item b) ∧
          ∀ c ∈ l2, FaMatch.scoreCandidate item c ≤ FaMatch.scoreCandidate item b := by
  refine ⟨FaMatch.pickBestFA_eq_ref item cands opts, ?_⟩
  intro b hb
  rcases FaMatch.pickBestFA_some_firstMax item cands opts b hb with ⟨hfm, _⟩
  rcases FaMatch.firstMax_split _ _ hfm with ⟨L1, L2, hsp, hlt, hle⟩
  rcases FaMatch.map_split (fun c => (c, FaMatch.scoreCandidate item c)) _ _ _ _ hsp with
    ⟨a1, b', a2, e1, e2, e3, e4⟩
  have hb' : b' = b := congrArg Prod.fst e3
  subst hb'
  refine ⟨a1, a2, e1, ?_, ?_⟩
  · intro c hc
    have := hlt (c, FaMatch.scoreCandidate item c)
      (by rw [← e2]; exact List.mem_map.mpr ⟨c, hc, rfl⟩)
    simpa using this
  · intro c hc
    have := hle (c, FaMatch.scoreCandidate item c)
      (by rw [← e4]; exact List.mem_map.mpr ⟨c, hc, rfl⟩)
    simpa using this
